import Mathlib

/-!
# Submission store of go-judger-demo (`src/web/db.go`)

A shallow embedding of the persistence layer: the record types, the three store
operations `Add`, `Update` and `Query`, and the part of the MongoDB driver they call
(`InsertOne`, `UpdateOne` with `$set`, `Find` with a filter, a sort and a limit,
`primitive.ObjectIDFromHex` and `ObjectID.Hex`).

The driver and the server are libraries outside the repository.  They are modelled by
their documented behaviour on one collection:

* every stored document has an `_id`, and `_id` values are pairwise distinct (the
  server's unique index on `_id`);
* the driver encodes an update before it sends anything, and refuses a `uint64` above
  `math.MaxInt64`: such an update returns an error and nothing is sent;
* what is sent either fails on the way (server unreachable, timeout, command refused by
  the server) and has no effect, or takes effect as documented.  Whether the round trip
  fails is an input of the model (`fault`), as are the clock (`now`) and the identity the
  driver generates for a new document (`gen`).
-/

namespace Judger

/-! ## Data model -/

/-- `primitive.ObjectID` is `[12]byte`.  The twelve bytes are read as one 96-bit
big-endian number: the server compares ObjectIds bytewise, which is the numeric order. -/
abbrev ObjectID := Fin (2 ^ 96)

/-- `time.Time`, as nanoseconds since the epoch. -/
abbrev Time := Nat

/-- Language defines the way to compile / run. -/
structure Language where
  Name : String
  SourceFileName : String
  CompileCmd : String
  Executables : String
  RunCmd : String
deriving DecidableEq, Repr

/-- Result is the judger updates (`uint64` fields are `Nat`: no arithmetic is done on
them; a Go value is below `2 ^ 64`). -/
structure Result where
  Time : Nat
  Memory : Nat
  Stdin : String
  Stdout : String
  Stderr : String
  Log : String
deriving DecidableEq, Repr

/-- Model is the database model as well as transfer model.  `ID` is a pointer in the
source; `none` is the nil pointer.  A nil slice and an empty slice are both `[]`. -/
structure Model where
  ID : Option ObjectID
  Lang : Language
  Source : String
  Date : Time
  Status : String
  TotalTime : Nat
  MaxMemory : Nat
  Results : List Result
deriving DecidableEq, Repr

/-- JudgerUpdate is judger submitted updates (`Type_` is the source's field `Type`). -/
structure JudgerUpdate where
  ID : Option ObjectID
  Type_ : String
  Status : String
  Date : Time
  Language : String
  Results : List Result
deriving DecidableEq, Repr

/-- Modelled from the spec: the type `ClientSubmit` is declared outside `db.go`; `Add`
reads exactly its fields `Lang` (a language descriptor) and `Source` (the source text). -/
structure ClientSubmit where
  Lang : Language
  Source : String
deriving DecidableEq, Repr

/-- The errors the three operations can return, named after where they arise. -/
inductive Error where
  /-- `primitive.ErrInvalidHex`: the string is not 24 bytes long. -/
  | ErrInvalidHex
  /-- `hex.InvalidByteError`: a byte of the string is not a hexadecimal digit. -/
  | InvalidByteError
  /-- The server refused an insert because the `_id` is already present. -/
  | DuplicateKey
  /-- The driver cannot encode a `uint64` above `math.MaxInt64` (`overflows int64`). -/
  | Overflow
  /-- Any other error returned by a driver call: the round trip to the server failed. -/
  | Driver
deriving DecidableEq, Repr

/-- Results of the operations can be compared. -/
instance instDecidableEqExcept {ε α : Type} [DecidableEq ε] [DecidableEq α] :
    DecidableEq (Except ε α)
  | .ok a, .ok b => if h : a = b then isTrue (by rw [h]) else isFalse (fun e => h (by cases e; rfl))
  | .error a, .error b =>
    if h : a = b then isTrue (by rw [h]) else isFalse (fun e => h (by cases e; rfl))
  | .ok _, .error _ => isFalse (fun e => by cases e)
  | .error _, .ok _ => isFalse (fun e => by cases e)

/-- The spec's `MalformedIdentity` kind: an identity string that cannot be decoded. -/
def Error.isMalformedIdentity : Error → Bool
  | .ErrInvalidHex => true
  | .InvalidByteError => true
  | _ => false

/-! ## Identities as hexadecimal strings -/

/-- Go's `len` on a string: its length in bytes. -/
def len (s : String) : Nat := s.utf8ByteSize

/-- `fromHexChar` of `encoding/hex`: the value of one hexadecimal digit, either case. -/
def fromHexChar (c : Char) : Option Nat :=
  if '0' ≤ c ∧ c ≤ '9' then some (c.toNat - '0'.toNat)
  else if 'a' ≤ c ∧ c ≤ 'f' then some (c.toNat - 'a'.toNat + 10)
  else if 'A' ≤ c ∧ c ≤ 'F' then some (c.toNat - 'A'.toNat + 10)
  else none

/-- `hex.Decode`, reading the digits left to right into the big-endian number `acc`.
A character outside ASCII has no byte that is a hexadecimal digit, so it is rejected
like any other invalid byte. -/
def hexDecode : List Char → Nat → Except Error Nat
  | [], acc => .ok acc
  | c :: cs, acc =>
    match fromHexChar c with
    | none => .error .InvalidByteError
    | some v => hexDecode cs (acc * 16 + v)

/-- `primitive.ObjectIDFromHex`: exactly 24 bytes, all of them hexadecimal digits. -/
def ObjectIDFromHex (s : String) : Except Error ObjectID :=
  if len s ≠ 24 then .error .ErrInvalidHex
  else
    match hexDecode s.data 0 with
    | .error err => .error err
    | .ok v => .ok ⟨v % 2 ^ 96, Nat.mod_lt _ (Nat.two_pow_pos 96)⟩

/-- The `hextable` of `encoding/hex`: lower-case digits. -/
def hextable (v : Nat) : Char := "0123456789abcdef".data.getD v '0'

/-- `hex.Encode` of a `k`-digit big-endian number, most significant digit first. -/
def hexEncode : Nat → Nat → List Char
  | 0, _ => []
  | k + 1, v => hextable (v / 16 ^ k % 16) :: hexEncode k v

/-- `ObjectID.Hex`: the 24 lower-case hexadecimal digits of the identity. -/
def Hex (id : ObjectID) : String := ⟨hexEncode 24 id.val⟩

/-! ## The collection and the driver calls -/

/-- A stored document of collection `submission3`, as `Model` is marshalled: `_id` is
always present, `date` is a BSON datetime (milliseconds), and a field omitted because
it is empty reads back as the empty value. -/
structure Doc where
  _id : ObjectID
  language : Language
  source : String
  date : Nat
  status : String
  totalTime : Nat
  maxMemory : Nat
  results : List Result
deriving DecidableEq, Repr

/-- The collection: documents in insertion order, with pairwise distinct `_id`. -/
abbrev Collection := { docs : List Doc // (docs.map Doc._id).Nodup }

/-- The empty collection. -/
def Collection.empty : Collection := ⟨[], List.nodup_nil⟩

/-- Marshal a `Model` under identity `id`; a BSON datetime keeps milliseconds. -/
def marshal (id : ObjectID) (m : Model) : Doc :=
  { _id := id, language := m.Lang, source := m.Source, date := m.Date / 1000000,
    status := m.Status, totalTime := m.TotalTime, maxMemory := m.MaxMemory,
    results := m.Results }

/-- `cursor.Decode(&el)`: unmarshal a stored document into a `Model`.  Every document of
the collection has the shape of a marshalled `Model`, so decoding does not fail. -/
def decode (d : Doc) : Model :=
  { ID := some d._id, Lang := d.language, Source := d.source, Date := d.date * 1000000,
    Status := d.status, TotalTime := d.totalTime, MaxMemory := d.maxMemory,
    Results := d.results }

/-- The filters the store builds. -/
inductive Filter where
  /-- `bson.D{}`. -/
  | all
  /-- `{_id: v}`; a nil pointer is marshalled as BSON null. -/
  | idEq (v : Option ObjectID)
  /-- `{_id: {$lt: v}}`. -/
  | idLt (v : ObjectID)
deriving DecidableEq, Repr

/-- Whether a document satisfies a filter.  No document has a null or missing `_id`. -/
def Filter.test : Filter → Doc → Bool
  | .all, _ => true
  | .idEq (some v), d => decide (d._id = v)
  | .idEq none, _ => false
  | .idLt v, d => decide (d._id < v)

/-- `options.Find()` with the two settings the store uses.  `Limit = 0` is no limit;
`SortID` is the direction given for `_id` by `SetSort` (negative: descending, positive: ascending,
zero: no sort). -/
structure FindOptions where
  Limit : Nat
  SortID : Int
deriving DecidableEq, Repr

/-- Descending order of `_id`. -/
def idGE (a b : Doc) : Prop := b._id ≤ a._id

/-- Ascending order of `_id`. -/
def idLE (a b : Doc) : Prop := a._id ≤ b._id

instance : DecidableRel idGE := fun a b => inferInstanceAs (Decidable (b._id ≤ a._id))

instance : DecidableRel idLE := fun a b => inferInstanceAs (Decidable (a._id ≤ b._id))

/-- `Collection.Find`: the matching documents, sorted, cut at the limit. -/
def Find (c : Collection) (f : Filter) (o : FindOptions) (fault : Bool) :
    Except Error (List Doc) :=
  if fault then .error .Driver
  else
    let hits := c.val.filter f.test
    let sorted :=
      if o.SortID < 0 then hits.insertionSort idGE
      else if 0 < o.SortID then hits.insertionSort idLE
      else hits
    .ok (if o.Limit = 0 then sorted else sorted.take o.Limit)

/-- Apply `g` to the first document satisfying `p`, if there is one. -/
def setFirst (p : Doc → Bool) (g : Doc → Doc) : List Doc → List Doc
  | [] => []
  | d :: ds => if p d then g d :: ds else d :: setFirst p g ds

/-- The update document `{$set: {status, results}}`. -/
def setStatusResults (status : String) (results : List Result) (d : Doc) : Doc :=
  { d with status := status, results := results }

/-- `math.MaxInt64`. -/
def MaxInt64 : Nat := 9223372036854775807

/-- Whether the driver can encode a `Result`: a `uint64` is written as a BSON integer,
and a value above `math.MaxInt64` is refused. -/
def Result.encodes (r : Result) : Bool := decide (r.Time ≤ MaxInt64) && decide (r.Memory ≤ MaxInt64)

/-- Whether the driver can encode a results list. -/
def resultsEncode (results : List Result) : Bool := results.all Result.encodes

/-- A command the driver sends, or tries to send, to the server. -/
inductive Command where
  | InsertOne
  | UpdateOne (f : Filter)
  | Find (f : Filter)
deriving DecidableEq, Repr

/-- `Collection.UpdateOne` with `{$set: {status, results}}` and no upsert.  The driver
first encodes the update: results it cannot encode give an error and nothing is sent.
Otherwise the command is sent; when the round trip fails nothing changes; when it does
not, the first matching document gets the two fields, and with no match nothing
changes.  Returns the error if any, the collection, and the commands sent. -/
def UpdateOne (c : Collection) (f : Filter) (status : String) (results : List Result)
    (fault : Bool) : Except Error Unit × Collection × List Command :=
  if resultsEncode results = false then (.error .Overflow, c, [])
  else if fault then (.error .Driver, c, [.UpdateOne f])
  else
    (.ok (), ⟨setFirst f.test (setStatusResults status results) c.val, by
      have key : ∀ l : List Doc,
          (setFirst f.test (setStatusResults status results) l).map Doc._id
            = l.map Doc._id := by
        intro l
        induction l with
        | nil => rfl
        | cons d ds ih =>
          unfold setFirst
          split
          · rfl
          · simp only [List.map_cons, ih]
      rw [key]
      exact c.property⟩, [.UpdateOne f])

/-- `Collection.InsertOne`: a document without `_id` gets the identity `gen` that the
driver generates; the server refuses an `_id` that is already present.  Returns the
`InsertedID`.  The store inserts only documents with both counters zero and no results,
which the driver can always encode. -/
def InsertOne (c : Collection) (m : Model) (gen : ObjectID) (fault : Bool) :
    Except Error ObjectID × Collection :=
  if fault then (.error .Driver, c)
  else
    let id := m.ID.getD gen
    if h : id ∈ c.val.map Doc._id then (.error .DuplicateKey, c)
    else
      (.ok id, ⟨c.val ++ [marshal id m], by
        rw [List.map_append, List.nodup_append]
        refine ⟨c.property, List.nodup_singleton _, ?_⟩
        intro a ha hb
        simp only [List.map_cons, List.map_nil, List.mem_singleton] at hb
        subst hb
        exact h ha⟩)

/-! ## The store -/

/-- The store handle `db`: the collection `submission3` of its database, and the
commands the driver has sent, or tried to send, to the server so far (oldest first). -/
structure db where
  coll : Collection
  sent : List Command
deriving DecidableEq

/-- Record one more command. -/
def db.issue (d : db) (cmd : Command) : db := { d with sent := d.sent ++ [cmd] }

/-- `func (d *db) Add(cs *ClientSubmit) (*Model, error)`. -/
def Add (d : db) (cs : ClientSubmit) (now : Time) (gen : ObjectID) (fault : Bool) :
    Except Error Model × db :=
  let m : Model :=
    { ID := none, Lang := cs.Lang, Source := cs.Source, Date := now, Status := "",
      TotalTime := 0, MaxMemory := 0, Results := [] }
  match InsertOne d.coll m gen fault with
  | (.error err, c) => (.error err, { coll := c, sent := d.sent ++ [.InsertOne] })
  | (.ok id, c) => (.ok { m with ID := some id }, { coll := c, sent := d.sent ++ [.InsertOne] })

/-- `func (d *db) Update(m *JudgerUpdate) (*JudgerUpdate, error)`. -/
def Update (d : db) (m : JudgerUpdate) (fault : Bool) : Except Error JudgerUpdate × db :=
  let filter := Filter.idEq m.ID
  match UpdateOne d.coll filter m.Status m.Results fault with
  | (.error err, c, cmds) => (.error err, { coll := c, sent := d.sent ++ cmds })
  | (.ok _, c, cmds) => (.ok m, { coll := c, sent := d.sent ++ cmds })

/-- `func (d *db) Query(id string) ([]Model, error)`. -/
def Query (d : db) (id : String) (fault : Bool) : Except Error (List Model) × db :=
  let findOption : FindOptions := { Limit := 10, SortID := -1 }
  let filter : Except Error Filter :=
    if len id > 0 then
      match ObjectIDFromHex id with
      | .error err => .error err
      | .ok oid => .ok (.idLt oid)
    else .ok .all
  match filter with
  | .error err => (.error err, d)
  | .ok f =>
    match Find d.coll f findOption fault with
    | .error err => (.error err, d.issue (.Find f))
    | .ok cursor => (.ok (cursor.map decode), d.issue (.Find f))

/-! ## Reading one record, sequences of calls, paging -/

/-- The stored record with identity `i`, if there is one. -/
def findID (c : Collection) (i : ObjectID) : Option Doc :=
  c.val.find? (fun doc => decide (doc._id = i))

/-- One call of a store operation, with what the outside world decides for it. -/
inductive Call where
  | add (cs : ClientSubmit) (now : Time) (gen : ObjectID) (fault : Bool)
  | update (m : JudgerUpdate) (fault : Bool)
  | query (id : String) (fault : Bool)

/-- The store after one call. -/
def step (d : db) : Call → db
  | .add cs now gen fault => (Add d cs now gen fault).2
  | .update m fault => (Update d m fault).2
  | .query id fault => (Query d id fault).2

/-- The store after a sequence of calls. -/
def run (d : db) (calls : List Call) : db := calls.foldl step d

/-- A store over the empty collection, before any call. -/
def db.init : db := { coll := Collection.empty, sent := [] }

/-- Strictly descending order of `_id` (newest first). -/
def idGT (a b : Doc) : Prop := b._id < a._id

instance : DecidableRel idGT := fun a b => inferInstanceAs (Decidable (b._id < a._id))

/-- Modelled from the spec: the reference the paged listing is compared with, the whole
collection sorted by identity newest-first, as one unpaged query would list it. -/
def unpagedNewestFirst (c : Collection) : List Model :=
  (c.val.insertionSort idGE).map decode

/-- Modelled from the spec: no caller of `Query` is in `db.go`.  The cursor a caller
passes for the next page is the hex identity of the last (oldest) record of the page
just received. -/
def nextCursor (page : List Model) : Option String :=
  match page.getLast? with
  | some m => m.ID.map Hex
  | none => none

/-- Modelled from the spec: no caller of `Query` is in `db.go`.  The pagination contract,
run with no writes in between: query with `cursor`; an empty page ends the paging;
otherwise continue from the last record of the page.  Returns the concatenation of the
pages, or `none` when a query fails or `fuel` queries were not enough. -/
def pageAll : Nat → db → String → Option (List Model)
  | 0, _, _ => none
  | fuel + 1, d, cursor =>
    match Query d cursor false with
    | (.error _, _) => none
    | (.ok [], _) => some []
    | (.ok (m :: ms), d1) =>
      match nextCursor (m :: ms) with
      | none => none
      | some next => (pageAll fuel d1 next).map (fun older => (m :: ms) ++ older)

/-- Both resource counters are zero in every document. -/
def TotalsZero (c : Collection) : Prop := ∀ doc ∈ c.val, doc.totalTime = 0 ∧ doc.maxMemory = 0

/-! ## Sample data -/

/-- The identity whose 96-bit value is `n`. -/
def mkID (n : Nat) : ObjectID := ⟨n % 2 ^ 96, Nat.mod_lt _ (Nat.two_pow_pos 96)⟩

/-- A language descriptor. -/
def exLang : Language :=
  { Name := "c", SourceFileName := "main.c", CompileCmd := "gcc main.c", Executables := "a.out",
    RunCmd := "./a.out" }

/-- A submission. -/
def exSubmit : ClientSubmit := { Lang := exLang, Source := "int main(void);" }

/-- One judged test case. -/
def exResult (t : Nat) : Result :=
  { Time := t, Memory := 64, Stdin := "1 2", Stdout := "3", Stderr := "", Log := "" }

/-- A pending stored record with identity `n`. -/
def exDoc (n : Nat) : Doc :=
  { _id := mkID n, language := exLang, source := "int main(void);", date := 1700000000000,
    status := "", totalTime := 0, maxMemory := 0, results := [] }

/-- A store holding the records 1, 3 and 2, inserted in that order. -/
def exDb : db := { coll := ⟨[exDoc 1, exDoc 3, exDoc 2], by decide⟩, sent := [] }

/-- A judge update for identity `id`. -/
def exUpdate (id : Option ObjectID) : JudgerUpdate :=
  { ID := id, Type_ := "finished", Status := "Accepted", Date := 0, Language := "c",
    Results := [exResult 5, exResult 7] }

/-- A judge update for identity `id` whose one result has `Time = 1 << 63`. -/
def exOverflowUpdate (id : Option ObjectID) : JudgerUpdate :=
  { ID := id, Type_ := "finished", Status := "Accepted", Date := 0, Language := "c",
    Results := [exResult 9223372036854775808] }

instance : IsTotal Doc idGE := ⟨fun a b => le_total b._id a._id⟩

instance : IsTrans Doc idGE := ⟨fun _ _ _ hab hbc => le_trans hbc hab⟩

instance : IsTrans Doc idGT := ⟨fun _ _ _ hab hbc => lt_trans hbc hab⟩

instance : IsAntisymm Doc idGT := ⟨fun _ _ hab hba => absurd hab (lt_asymm hba)⟩

/-- All documents matching `f`, newest first: what `Find` sorts before it cuts the page. -/
def rest (c : Collection) (f : Filter) : List Doc := (c.val.filter f.test).insertionSort idGE

/-- A filter that, with a document, accepts every document of smaller identity. -/
def DownClosed (f : Filter) : Prop :=
  ∀ y z : Doc, f.test z = true → y._id ≤ z._id → f.test y = true

/-! ## Facts about the driver model -/

theorem setFirst_no_match (p : Doc → Bool) (g : Doc → Doc) (l : List Doc)
    (h : ∀ doc ∈ l, p doc = false) : setFirst p g l = l := by
  induction l with
  | nil => rfl
  | cons d ds ih =>
    have hd : p d = false := h d (List.mem_cons_self d ds)
    have ht : ∀ doc ∈ ds, p doc = false := fun doc hdoc => h doc (List.mem_cons_of_mem d hdoc)
    simp [setFirst, hd, ih ht]

theorem find_setFirst (i : ObjectID) (g : Doc → Doc) (hg : ∀ doc, (g doc)._id = doc._id)
    (l : List Doc) (old : Doc)
    (h : l.find? (fun doc => decide (doc._id = i)) = some old) :
    (setFirst (fun doc => decide (doc._id = i)) g l).find? (fun doc => decide (doc._id = i))
      = some (g old) := by
  induction l with
  | nil => simp at h
  | cons d ds ih =>
    by_cases hd : d._id = i
    · have : old = d := by simpa [List.find?, hd] using h.symm
      subst this
      simp [setFirst, hd, List.find?, hg]
    · have h2 : ds.find? (fun doc => decide (doc._id = i)) = some old := by
        simpa [List.find?, hd] using h
      simp [setFirst, hd, List.find?, ih h2]

/-- Results that cannot be encoded: the encode error, and the store handle as before. -/
theorem Update_overflow (d : db) (m : JudgerUpdate) (fault : Bool)
    (h : resultsEncode m.Results = false) : Update d m fault = (.error .Overflow, d) := by
  simp only [Update, UpdateOne, h, if_true, List.append_nil]

/-- Results that encode, round trip failing: the driver's error, the command sent, the
collection as before. -/
theorem Update_fault (d : db) (m : JudgerUpdate) (h : resultsEncode m.Results = true) :
    Update d m true = (.error .Driver, d.issue (.UpdateOne (.idEq m.ID))) := by
  simp only [Update, UpdateOne, h, Bool.true_eq_false, if_false, if_true]
  rfl

/-- Results that encode, round trip succeeding: the request echoed back, the command
sent, the first matching document updated. -/
theorem Update_ok (d : db) (m : JudgerUpdate) (h : resultsEncode m.Results = true) :
    (Update d m false).1 = .ok m ∧
      (Update d m false).2.coll.val
        = setFirst (Filter.idEq m.ID).test (setStatusResults m.Status m.Results) d.coll.val ∧
      (Update d m false).2.sent = d.sent ++ [Command.UpdateOne (Filter.idEq m.ID)] := by
  simp only [Update, UpdateOne, h, Bool.true_eq_false, Bool.false_eq_true, if_false]
  exact ⟨trivial, trivial, trivial⟩

theorem Update_fst (d : db) (m : JudgerUpdate) (fault : Bool) :
    (Update d m fault).1 =
      if resultsEncode m.Results = true then (if fault = true then .error .Driver else .ok m)
      else .error .Overflow := by
  cases h : resultsEncode m.Results
  · rw [Update_overflow d m fault h]
    rfl
  · cases fault
    · rw [(Update_ok d m h).1]
      rfl
    · rw [Update_fault d m h]
      rfl

theorem Update_sent (d : db) (m : JudgerUpdate) (fault : Bool) :
    (Update d m fault).2.sent =
      if resultsEncode m.Results = true then d.sent ++ [Command.UpdateOne (Filter.idEq m.ID)]
      else d.sent := by
  cases h : resultsEncode m.Results
  · rw [Update_overflow d m fault h]
    rfl
  · cases fault
    · rw [(Update_ok d m h).2.2]
      rfl
    · rw [Update_fault d m h]
      rfl

/-- The collection after `Update`: as before, or with the first matching document
updated. -/
theorem Update_coll (d : db) (m : JudgerUpdate) (fault : Bool) :
    (Update d m fault).2.coll = d.coll ∨
      (resultsEncode m.Results = true ∧ fault = false ∧
        (Update d m fault).2.coll.val
          = setFirst (Filter.idEq m.ID).test (setStatusResults m.Status m.Results) d.coll.val) := by
  cases h : resultsEncode m.Results
  · left; rw [Update_overflow d m fault h]
  · cases fault
    · right; exact ⟨rfl, rfl, (Update_ok d m h).2.1⟩
    · left; rw [Update_fault d m h]; rfl

/-- The outcome of `Add`: on a fault or a duplicate identity an error and the collection
as before; otherwise the new record, stored at the end of the collection. -/
theorem Add_cases (d : db) (cs : ClientSubmit) (now : Time) (gen : ObjectID) (fault : Bool) :
    ((∃ err, (Add d cs now gen fault).1 = .error err) ∧
        (Add d cs now gen fault).2.coll.val = d.coll.val) ∨
      ((Add d cs now gen fault).1 =
          .ok { ID := some gen, Lang := cs.Lang, Source := cs.Source, Date := now,
                Status := "", TotalTime := 0, MaxMemory := 0, Results := [] } ∧
        fault = false ∧ gen ∉ d.coll.val.map Doc._id ∧
        (Add d cs now gen fault).2.coll.val = d.coll.val ++
          [{ _id := gen, language := cs.Lang, source := cs.Source, date := now / 1000000,
             status := "", totalTime := 0, maxMemory := 0, results := [] }]) := by
  cases fault
  · by_cases h : gen ∈ d.coll.val.map Doc._id
    · left
      simp only [Add, InsertOne, Option.getD_none, h, dite_true, Bool.false_eq_true, if_false]
      exact ⟨⟨_, rfl⟩, trivial⟩
    · right
      simp only [Add, InsertOne, Option.getD_none, h, dite_false, Bool.false_eq_true, if_false,
        not_false_eq_true, marshal, true_and]
  · left; exact ⟨⟨_, rfl⟩, rfl⟩

theorem mem_setFirst (p : Doc → Bool) (g : Doc → Doc) (l : List Doc) (x : Doc)
    (h : x ∈ setFirst p g l) : x ∈ l ∨ ∃ y ∈ l, x = g y := by
  induction l with
  | nil => simp [setFirst] at h
  | cons d ds ih =>
    unfold setFirst at h
    split at h
    · rcases List.mem_cons.mp h with h1 | h1
      · exact Or.inr ⟨d, List.mem_cons_self d ds, h1⟩
      · exact Or.inl (List.mem_cons_of_mem d h1)
    · rcases List.mem_cons.mp h with h1 | h1
      · exact Or.inl (h1 ▸ List.mem_cons_self d ds)
      · rcases ih h1 with h2 | ⟨y, hy, hxy⟩
        · exact Or.inl (List.mem_cons_of_mem d h2)
        · exact Or.inr ⟨y, List.mem_cons_of_mem d hy, hxy⟩

theorem Query_coll (d : db) (id : String) (fault : Bool) : (Query d id fault).2.coll = d.coll := by
  unfold Query
  simp only
  split
  · rfl
  · split <;> rfl


theorem step_TotalsZero (d : db) (call : Call) (h : TotalsZero d.coll) :
    TotalsZero (step d call).coll := by
  cases call with
  | add cs now gen fault =>
    intro doc hdoc
    rcases Add_cases d cs now gen fault with ⟨_, hc⟩ | ⟨_, _, _, hc⟩
    · exact h doc (by rw [← hc]; exact hdoc)
    · have hdoc2 : doc ∈ (Add d cs now gen fault).2.coll.val := hdoc
      rw [hc, List.mem_append, List.mem_singleton] at hdoc2
      rcases hdoc2 with h1 | h1
      · exact h doc h1
      · subst h1; exact ⟨rfl, rfl⟩
  | update m fault =>
    intro doc hdoc
    have hdoc2 : doc ∈ (Update d m fault).2.coll.val := hdoc
    rcases Update_coll d m fault with hc | ⟨_, _, hc⟩
    · rw [hc] at hdoc2
      exact h doc hdoc2
    · rw [hc] at hdoc2
      rcases mem_setFirst _ _ _ _ hdoc2 with h1 | ⟨y, hy, hxy⟩
      · exact h doc h1
      · subst hxy; exact h y hy
  | query id fault =>
    intro doc hdoc
    have hdoc2 : doc ∈ (Query d id fault).2.coll.val := hdoc
    rw [Query_coll] at hdoc2
    exact h doc hdoc2

theorem run_TotalsZero (calls : List Call) (d : db) (h : TotalsZero d.coll) :
    TotalsZero (run d calls).coll := by
  induction calls generalizing d with
  | nil => exact h
  | cons call rest ih => exact ih (step d call) (step_TotalsZero d call h)

/-! ## Add and Update -/

/-- C2: when the insert succeeds, `Add` returns a record whose identity is non-nil and is
the identity of the document the store inserted (the new last document of the
collection), whose language and source are the submitted ones, and whose status and
results are empty. -/
theorem Add_returns_inserted_record (d : db) (cs : ClientSubmit) (now : Time) (gen : ObjectID)
    (fault : Bool) (m : Model) (hok : (Add d cs now gen fault).1 = .ok m) :
    (∃ doc, (Add d cs now gen fault).2.coll.val = d.coll.val ++ [doc] ∧ m.ID = some doc._id ∧
        doc.language = cs.Lang ∧ doc.source = cs.Source) ∧
      m.ID ≠ none ∧ m.Lang = cs.Lang ∧ m.Source = cs.Source ∧ m.Status = "" ∧ m.Results = [] := by
  rcases Add_cases d cs now gen fault with ⟨⟨err, herr⟩, _⟩ | ⟨hm, _, _, hc⟩
  · rw [herr] at hok; cases hok
  · rw [hm] at hok
    cases hok
    exact ⟨⟨_, hc, rfl, rfl, rfl⟩, by simp, rfl, rfl, rfl, rfl⟩

/-- A submission added to a store holding 1, 3 and 2, with generated identity 9. -/
theorem Add_returns_inserted_record_witness :
    (Add exDb exSubmit 1700000000123456789 (mkID 9) false).1
        = .ok { ID := some (mkID 9), Lang := exLang, Source := "int main(void);",
                Date := 1700000000123456789, Status := "", TotalTime := 0, MaxMemory := 0,
                Results := [] } ∧
      ((∃ doc, (Add exDb exSubmit 1700000000123456789 (mkID 9) false).2.coll.val
            = exDb.coll.val ++ [doc] ∧
          (some (mkID 9) : Option ObjectID) = some doc._id ∧
          doc.language = exSubmit.Lang ∧ doc.source = exSubmit.Source) ∧
        (some (mkID 9) : Option ObjectID) ≠ none ∧ exLang = exSubmit.Lang ∧
        "int main(void);" = exSubmit.Source ∧ "" = "" ∧ ([] : List Result) = []) :=
  ⟨by decide, Add_returns_inserted_record exDb exSubmit 1700000000123456789 (mkID 9) false
      { ID := some (mkID 9), Lang := exLang, Source := "int main(void);",
        Date := 1700000000123456789, Status := "", TotalTime := 0, MaxMemory := 0,
        Results := [] } (by decide)⟩

/-- C1: when the update names the identity of an existing record and `Update` succeeds,
the record read back under that identity has exactly the supplied status and the
supplied results list, and the same source, language, date and identity as before. -/
theorem Update_overwrites_status_and_results (d : db) (m : JudgerUpdate) (fault : Bool)
    (i : ObjectID) (old : Doc) (hid : m.ID = some i) (hold : findID d.coll i = some old)
    (hok : (Update d m fault).1 = .ok m) :
    ∃ new, findID (Update d m fault).2.coll i = some new ∧
      new.status = m.Status ∧ new.results = m.Results ∧
      new.source = old.source ∧ new.language = old.language ∧ new.date = old.date ∧
      new._id = old._id ∧ new._id = i := by
  rw [Update_fst] at hok
  cases henc : resultsEncode m.Results
  · rw [henc] at hok
    cases hok
  · cases fault
    · refine ⟨setStatusResults m.Status m.Results old, ?_, rfl, rfl, rfl, rfl, rfl, rfl, ?_⟩
      · unfold findID
        rw [(Update_ok d m henc).2.1, hid]
        exact find_setFirst i (setStatusResults m.Status m.Results) (fun _ => rfl) _ old hold
      · have := List.find?_some hold
        simpa [setStatusResults] using this
    · rw [henc] at hok
      cases hok

/-- An accepted verdict with two results for record 3 of a store holding 1, 3 and 2. -/
theorem Update_overwrites_status_and_results_witness :
    (exUpdate (some (mkID 3))).ID = some (mkID 3) ∧ findID exDb.coll (mkID 3) = some (exDoc 3) ∧
      (Update exDb (exUpdate (some (mkID 3))) false).1 = .ok (exUpdate (some (mkID 3))) ∧
      ∃ new, findID (Update exDb (exUpdate (some (mkID 3))) false).2.coll (mkID 3) = some new ∧
        new.status = (exUpdate (some (mkID 3))).Status ∧
        new.results = (exUpdate (some (mkID 3))).Results ∧
        new.source = (exDoc 3).source ∧ new.language = (exDoc 3).language ∧
        new.date = (exDoc 3).date ∧ new._id = (exDoc 3)._id ∧ new._id = mkID 3 :=
  ⟨rfl, by decide, by decide,
    Update_overwrites_status_and_results exDb (exUpdate (some (mkID 3))) false (mkID 3) (exDoc 3)
      rfl (by decide) (by decide)⟩

/-- No document matches the filter `{_id: ID}` when `ID` is the identity of none. -/
theorem setFirst_unmatched (d : db) (m : JudgerUpdate)
    (hno : ∀ doc ∈ d.coll.val, m.ID ≠ some doc._id) :
    setFirst (Filter.idEq m.ID).test (setStatusResults m.Status m.Results) d.coll.val
      = d.coll.val := by
  apply setFirst_no_match
  intro doc hdoc
  have h := hno doc hdoc
  cases hm : m.ID with
  | none => rfl
  | some v =>
    rw [hm] at h
    have hne : doc._id ≠ v := fun e => h (by rw [e])
    simp [Filter.test, hne]

/-- C6, as the code behaves when a result cannot be encoded: an update for identity 7,
which matches no record of a store holding 1, 3 and 2, with a result whose `Time` is
`1 << 63`, returns the driver's encode error on a reachable store, not success. -/
theorem Update_unmatched_overflow_fails :
    (∀ doc ∈ exDb.coll.val, (exOverflowUpdate (some (mkID 7))).ID ≠ some doc._id) ∧
      Update exDb (exOverflowUpdate (some (mkID 7))) false = (.error .Overflow, exDb) ∧
      (Update exDb (exOverflowUpdate (some (mkID 7))) false).1
        ≠ .ok (exOverflowUpdate (some (mkID 7))) := by
  refine ⟨by decide, by decide, by decide⟩

/-- C6, amended: when the identity of the update matches no stored record (an absent
identity included), the collection is exactly as it was, so no record is created and
none is modified, and the missing identity is never an error: `Update` returns the
request echoed back when every `Time` and `Memory` of its results is at most
`math.MaxInt64` and the round trip to the store does not fail; it returns the driver's
encode error, having sent nothing, when a `Time` or `Memory` is larger, and the store's
error when the round trip fails. -/
theorem Update_without_match_is_noop (d : db) (m : JudgerUpdate) (fault : Bool)
    (hno : ∀ doc ∈ d.coll.val, m.ID ≠ some doc._id) :
    (Update d m fault).2.coll = d.coll ∧
      (Update d m fault).1 =
        (if resultsEncode m.Results = true then
          (if fault = true then .error .Driver else .ok m)
        else .error .Overflow) ∧
      (Update d m fault).2.sent =
        (if resultsEncode m.Results = true then
          d.sent ++ [Command.UpdateOne (Filter.idEq m.ID)]
        else d.sent) := by
  refine ⟨?_, Update_fst d m fault, Update_sent d m fault⟩
  rcases Update_coll d m fault with hc | ⟨_, _, hc⟩
  · exact hc
  · apply Subtype.ext
    rw [hc]
    exact setFirst_unmatched d m hno

/-- An update for identity 7, with results that encode, on a reachable store holding 1,
3 and 2: success, the request echoed back, the collection as before. -/
theorem Update_without_match_is_noop_witness :
    (∀ doc ∈ exDb.coll.val, (exUpdate (some (mkID 7))).ID ≠ some doc._id) ∧
      (Update exDb (exUpdate (some (mkID 7))) false).1 = .ok (exUpdate (some (mkID 7))) ∧
      (Update exDb (exUpdate (some (mkID 7))) false).2.coll = exDb.coll ∧
      (Update exDb (exUpdate (some (mkID 7))) false).2.sent
        = [Command.UpdateOne (Filter.idEq (some (mkID 7)))] :=
  have h := Update_without_match_is_noop exDb (exUpdate (some (mkID 7))) false (by decide)
  ⟨by decide, h.2.1.trans (by decide), h.1, h.2.2.trans (by decide)⟩

/-- C8, as the code behaves at an absent identity: on a reachable store `Update` with a
nil identity returns success, not an error, and the write was attempted. -/
theorem Update_nil_identity_succeeds :
    (Update exDb (exUpdate none) false).1 = .ok (exUpdate none) ∧
      (Update exDb (exUpdate none) false).2.sent = [Command.UpdateOne (Filter.idEq none)] ∧
      ¬ (∃ err, (Update exDb (exUpdate none) false).1 = .error err ∧
          err.isMalformedIdentity = true) := by
  have hok : (Update exDb (exUpdate none) false).1 = .ok (exUpdate none) := by decide
  refine ⟨hok, by decide, ?_⟩
  rintro ⟨err, herr, _⟩
  rw [hok] at herr
  cases herr

/-- C8, amended: `Update` receives an identity that is already decoded (or absent) and
parses nothing, so it never fails with a malformed-identity error.  When every `Time`
and `Memory` of its results is at most `math.MaxInt64` it sends the write, with the
identity as the filter, and returns the request echoed back, or the store's error when
the round trip fails; when a `Time` or `Memory` is larger it returns the driver's encode
error and sends nothing.  With an absent identity the write matches no record and the
collection is as it was. -/
theorem Update_never_malformed_identity (d : db) (m : JudgerUpdate) (fault : Bool) :
    (Update d m fault).1 =
        (if resultsEncode m.Results = true then
          (if fault = true then .error .Driver else .ok m)
        else .error .Overflow) ∧
      (Update d m fault).2.sent =
        (if resultsEncode m.Results = true then
          d.sent ++ [Command.UpdateOne (Filter.idEq m.ID)]
        else d.sent) ∧
      (¬ ∃ err, (Update d m fault).1 = .error err ∧ err.isMalformedIdentity = true) ∧
      (Update d { m with ID := none } fault).2.coll = d.coll := by
  refine ⟨Update_fst d m fault, Update_sent d m fault, ?_, ?_⟩
  · rintro ⟨err, herr, hkind⟩
    rw [Update_fst] at herr
    cases henc : resultsEncode m.Results
    · rw [henc] at herr
      cases herr
      cases hkind
    · rw [henc] at herr
      cases fault
      · cases herr
      · cases herr
        cases hkind
  · rcases Update_coll d { m with ID := none } fault with hc | ⟨_, _, hc⟩
    · exact hc
    · apply Subtype.ext
      rw [hc]
      exact setFirst_no_match _ _ _ (fun _ _ => rfl)

/-- C10: in every store reached from the empty collection by any sequence of calls of
`Add`, `Update` and `Query`, whatever the clock, the generated identities and the driver
faults, every record has `totalTime = 0` and `maxMemory = 0`. -/
theorem totals_never_populated (calls : List Call) :
    ∀ doc ∈ (run db.init calls).coll.val, doc.totalTime = 0 ∧ doc.maxMemory = 0 :=
  run_TotalsZero calls db.init (fun _ h => by cases h)

/-- A record added with identity 5 and then judged: its counters are still zero. -/
theorem totals_never_populated_witness :
    ({ _id := mkID 5, language := exLang, source := "int main(void);", date := 1700000000123,
        status := "Accepted", totalTime := 0, maxMemory := 0,
        results := [exResult 5, exResult 7] } : Doc)
      ∈ (run db.init [Call.add exSubmit 1700000000123456789 (mkID 5) false,
            Call.update (exUpdate (some (mkID 5))) false]).coll.val ∧
    ((0 : Nat) = 0 ∧ (0 : Nat) = 0) :=
  ⟨by decide,
    totals_never_populated [Call.add exSubmit 1700000000123456789 (mkID 5) false,
        Call.update (exUpdate (some (mkID 5))) false]
      { _id := mkID 5, language := exLang, source := "int main(void);", date := 1700000000123,
        status := "Accepted", totalTime := 0, maxMemory := 0,
        results := [exResult 5, exResult 7] } (by decide)⟩

/-! ## Identity strings -/

theorem len_pos_of_ne_empty (s : String) (h : s ≠ "") : 0 < len s := by
  obtain ⟨cs⟩ := s
  cases cs with
  | nil => exact absurd rfl h
  | cons c cs =>
    show 0 < String.utf8ByteSize.go (c :: cs)
    unfold String.utf8ByteSize.go
    have := c.utf8Size_pos
    omega

theorem hexDecode_error (cs : List Char) (acc : Nat) (err : Error)
    (h : hexDecode cs acc = .error err) : err = .InvalidByteError := by
  induction cs generalizing acc with
  | nil => cases h
  | cons c cs ih =>
    unfold hexDecode at h
    split at h
    · cases h; rfl
    · exact ih _ h

theorem ObjectIDFromHex_error (s : String) (err : Error) (h : ObjectIDFromHex s = .error err) :
    err.isMalformedIdentity = true := by
  unfold ObjectIDFromHex at h
  split at h
  · cases h; rfl
  · split at h
    · rename_i e he
      cases h
      rw [hexDecode_error _ _ _ he]
      rfl
    · cases h

theorem Query_empty (d : db) (fault : Bool) :
    Query d "" fault =
      (match Find d.coll .all { Limit := 10, SortID := -1 } fault with
        | .error err => .error err
        | .ok cursor => .ok (cursor.map decode),
       d.issue (.Find .all)) := by
  have h0 : ¬ (len "" > 0) := by decide
  unfold Query
  simp only [h0, if_false]
  split <;> rfl

theorem Query_cursor (d : db) (id : String) (oid : ObjectID) (fault : Bool)
    (h : ObjectIDFromHex id = .ok oid) :
    Query d id fault =
      (match Find d.coll (.idLt oid) { Limit := 10, SortID := -1 } fault with
        | .error err => .error err
        | .ok cursor => .ok (cursor.map decode),
       d.issue (.Find (.idLt oid))) := by
  have h0 : len id > 0 := by
    unfold ObjectIDFromHex at h
    split at h
    · cases h
    · rename_i hl
      have : len id = 24 := by simpa using hl
      omega
  unfold Query
  simp only [h0, if_true, h]
  split <;> rfl

/-- C7: a non-empty cursor that `ObjectIDFromHex` cannot parse makes `Query` return that
parse error, which is of the malformed-identity kind, with no records and with the
store handle exactly as before, so no `Find` was issued; and a query with the empty
string never returns a malformed-identity error and does issue its `Find`. -/
theorem Query_malformed_cursor (d : db) (id : String) (fault : Bool)
    (hne : id ≠ "") (hbad : ∀ oid, ObjectIDFromHex id ≠ .ok oid) :
    (∃ err, err.isMalformedIdentity = true ∧ ObjectIDFromHex id = .error err ∧
        Query d id fault = (.error err, d)) ∧
      (¬ ∃ err, (Query d "" fault).1 = .error err ∧ err.isMalformedIdentity = true) ∧
      (Query d "" fault).2.sent = d.sent ++ [Command.Find Filter.all] := by
  refine ⟨?_, ?_, ?_⟩
  · have h0 : len id > 0 := len_pos_of_ne_empty id hne
    cases hp : ObjectIDFromHex id with
    | ok oid => exact absurd hp (hbad oid)
    | error err =>
      refine ⟨err, ObjectIDFromHex_error id err hp, rfl, ?_⟩
      unfold Query
      simp only [h0, if_true, hp]
  · rintro ⟨err, herr, hkind⟩
    rw [Query_empty] at herr
    cases fault
    · simp [Find] at herr
    · simp [Find] at herr
      subst herr
      cases hkind
  · rw [Query_empty]
    rfl

/-- The four-character cursor `5f3e` on a store holding 1, 3 and 2. -/
theorem Query_malformed_cursor_witness :
    ("5f3e" ≠ "" ∧ (∀ oid, ObjectIDFromHex "5f3e" ≠ .ok oid)) ∧
      (∃ err, err.isMalformedIdentity = true ∧ ObjectIDFromHex "5f3e" = .error err ∧
        Query exDb "5f3e" false = (.error err, exDb)) ∧
      (¬ ∃ err, (Query exDb "" false).1 = .error err ∧ err.isMalformedIdentity = true) ∧
      (Query exDb "" false).2.sent = exDb.sent ++ [Command.Find Filter.all] :=
  have hbad : ∀ oid, ObjectIDFromHex "5f3e" ≠ .ok oid := fun oid h => by
    have he : ObjectIDFromHex "5f3e" = .error .ErrInvalidHex := by decide
    rw [he] at h
    cases h
  ⟨⟨by decide, hbad⟩, Query_malformed_cursor exDb "5f3e" false (by decide) hbad⟩

/-! ## Sorted pages -/

theorem Find_page (c : Collection) (f : Filter) :
    Find c f { Limit := 10, SortID := -1 } false
      = .ok (((c.val.filter f.test).insertionSort idGE).take 10) := by
  simp [Find]

/-- Sorting documents with distinct identities by descending `_id` gives a strictly
descending list. -/
theorem sortedDesc_strict (l : List Doc) (h : (l.map Doc._id).Nodup) :
    (l.insertionSort idGE).Pairwise idGT := by
  have hs : (l.insertionSort idGE).Pairwise idGE := List.sorted_insertionSort idGE l
  have hn : ((l.insertionSort idGE).map Doc._id).Nodup :=
    ((List.perm_insertionSort idGE l).map Doc._id).nodup_iff.mpr h
  have hn2 : (l.insertionSort idGE).Pairwise (fun a b => a._id ≠ b._id) :=
    List.pairwise_map.mp hn
  refine (hs.and hn2).imp ?_
  intro a b hab
  exact lt_of_le_of_ne hab.1 (fun e => hab.2 e.symm)

theorem nodup_filter_ids (l : List Doc) (p : Doc → Bool) (h : (l.map Doc._id).Nodup) :
    ((l.filter p).map Doc._id).Nodup :=
  h.sublist ((List.filter_sublist l).map Doc._id)

/-- The page that `Find` returns for filter `f`, before decoding. -/
theorem page_facts (c : Collection) (f : Filter) :
    ((c.val.filter f.test).insertionSort idGE).take 10 ⊆ c.val.filter f.test ∧
      (((c.val.filter f.test).insertionSort idGE).take 10).Pairwise idGT := by
  constructor
  · intro x hx
    exact (List.mem_insertionSort idGE).mp (List.mem_of_mem_take hx)
  · exact (sortedDesc_strict _ (nodup_filter_ids _ _ c.property)).sublist (List.take_sublist _ _)

/-- C3: with no cursor and a reachable store, `Query` returns the decoded documents of a
page that has exactly `min 10 n` documents of the collection, in strictly decreasing
identity order, and every stored document left out of the page has a smaller identity
than every document in it. -/
theorem Query_no_cursor_newest_ten (d : db) :
    ∃ page : List Doc, (Query d "" false).1 = .ok (page.map decode) ∧
      page.length = min 10 d.coll.val.length ∧
      page.Pairwise (fun a b => b._id < a._id) ∧
      (∀ doc ∈ page, doc ∈ d.coll.val) ∧
      (∀ doc ∈ d.coll.val, doc ∉ page → ∀ x ∈ page, doc._id < x._id) := by
  have hall : d.coll.val.filter Filter.all.test = d.coll.val :=
    List.filter_eq_self.mpr (fun _ _ => rfl)
  have hf := page_facts d.coll Filter.all
  rw [hall] at hf
  refine ⟨(d.coll.val.insertionSort idGE).take 10, ?_, ?_, hf.2, fun doc h => hf.1 h, ?_⟩
  · rw [Query_empty, Find_page, hall]
  · rw [List.length_take, List.length_insertionSort]
  · intro doc hdoc hnot x hx
    have hmem : doc ∈ d.coll.val.insertionSort idGE := (List.mem_insertionSort idGE).mpr hdoc
    rw [← List.take_append_drop 10 (d.coll.val.insertionSort idGE), List.mem_append] at hmem
    rcases hmem with h1 | h1
    · exact absurd h1 hnot
    · have hs : (d.coll.val.insertionSort idGE).Sorted idGT := sortedDesc_strict _ d.coll.property
      exact hs.rel_of_mem_take_of_mem_drop hx h1

/-- C4: with a well-formed cursor and a reachable store, `Query` returns the decoded
documents of a page of stored documents whose identities are all strictly less than the
cursor (so never the cursor's own record), with at most 10 documents, in strictly
decreasing identity order. -/
theorem Query_cursor_strictly_older (d : db) (c : String) (cid : ObjectID)
    (hc : ObjectIDFromHex c = .ok cid) :
    ∃ page : List Doc, (Query d c false).1 = .ok (page.map decode) ∧
      (∀ doc ∈ page, doc ∈ d.coll.val ∧ doc._id < cid ∧ doc._id ≠ cid) ∧
      page.length ≤ 10 ∧
      page.Pairwise (fun a b => b._id < a._id) := by
  have hf := page_facts d.coll (Filter.idLt cid)
  refine ⟨((d.coll.val.filter (Filter.idLt cid).test).insertionSort idGE).take 10, ?_, ?_, ?_,
    hf.2⟩
  · rw [Query_cursor d c cid false hc, Find_page]
  · intro doc hdoc
    have hm := List.mem_filter.mp (hf.1 hdoc)
    have hlt : doc._id < cid := by simpa [Filter.test] using hm.2
    exact ⟨hm.1, hlt, ne_of_lt hlt⟩
  · rw [List.length_take]
    exact min_le_left _ _

/-- The cursor of record 3 on a store holding 1, 3 and 2. -/
theorem Query_cursor_strictly_older_witness :
    ObjectIDFromHex "000000000000000000000003" = .ok (mkID 3) ∧
      ∃ page : List Doc, (Query exDb "000000000000000000000003" false).1 = .ok (page.map decode) ∧
        (∀ doc ∈ page, doc ∈ exDb.coll.val ∧ doc._id < mkID 3 ∧ doc._id ≠ mkID 3) ∧
        page.length ≤ 10 ∧
        page.Pairwise (fun a b => b._id < a._id) :=
  ⟨by decide, Query_cursor_strictly_older exDb "000000000000000000000003" (mkID 3) (by decide)⟩

/-- C9: for a well-formed cursor `c`, an `Add` whose new identity is not less than `c`
leaves `Query(c)` returning exactly what it returned before, and every record stored
before the `Add` is still stored, unaltered and in the same place (the collection only
grows at the end). -/
theorem Query_page_stable_under_Add (d : db) (cs : ClientSubmit) (now : Time) (gen : ObjectID)
    (fault : Bool) (c : String) (cid : ObjectID) (qfault : Bool)
    (hc : ObjectIDFromHex c = .ok cid) (hge : cid ≤ gen) :
    (Query (Add d cs now gen fault).2 c qfault).1 = (Query d c qfault).1 ∧
      ∃ added, (Add d cs now gen fault).2.coll.val = d.coll.val ++ added := by
  have hkey : (Add d cs now gen fault).2.coll.val.filter (Filter.idLt cid).test
      = d.coll.val.filter (Filter.idLt cid).test ∧
      ∃ added, (Add d cs now gen fault).2.coll.val = d.coll.val ++ added := by
    rcases Add_cases d cs now gen fault with ⟨_, hcoll⟩ | ⟨_, _, _, hcoll⟩
    · exact ⟨by rw [hcoll], [], by rw [hcoll, List.append_nil]⟩
    · refine ⟨?_, _, hcoll⟩
      rw [hcoll, List.filter_append]
      have : ¬ gen < cid := not_lt.mpr hge
      simp [Filter.test, this]
  refine ⟨?_, hkey.2⟩
  rw [Query_cursor _ c cid qfault hc, Query_cursor _ c cid qfault hc]
  cases qfault
  · simp only [Find_page, hkey.1]
  · rfl

/-- The page below record 3, before and after a record 9 is added. -/
theorem Query_page_stable_under_Add_witness :
    (ObjectIDFromHex "000000000000000000000003" = .ok (mkID 3) ∧ mkID 3 ≤ mkID 9) ∧
      (Query (Add exDb exSubmit 1700000000123456789 (mkID 9) false).2
          "000000000000000000000003" false).1
        = (Query exDb "000000000000000000000003" false).1 ∧
      ∃ added, (Add exDb exSubmit 1700000000123456789 (mkID 9) false).2.coll.val
        = exDb.coll.val ++ added :=
  ⟨⟨by decide, by decide⟩,
    Query_page_stable_under_Add exDb exSubmit 1700000000123456789 (mkID 9) false
      "000000000000000000000003" (mkID 3) false (by decide) (by decide)⟩

/-! ## Hexadecimal round trip -/

theorem fromHexChar_hextable (v : Nat) (h : v < 16) : fromHexChar (hextable v) = some v := by
  interval_cases v <;> decide

theorem utf8Size_hextable (v : Nat) (h : v < 16) : (hextable v).utf8Size = 1 := by
  interval_cases v <;> decide

theorem hexDecode_hexEncode (k v acc : Nat) :
    hexDecode (hexEncode k v) acc = .ok (acc * 16 ^ k + v % 16 ^ k) := by
  induction k generalizing acc with
  | zero => simp [hexEncode, hexDecode, Nat.mod_one]
  | succ k ih =>
    have hd : v / 16 ^ k % 16 < 16 := Nat.mod_lt _ (by decide)
    unfold hexEncode hexDecode
    rw [fromHexChar_hextable _ hd]
    simp only
    rw [ih]
    have hm : v % (16 ^ k * 16) = v % 16 ^ k + 16 ^ k * (v / 16 ^ k % 16) := Nat.mod_mul
    rw [pow_succ, hm]
    congr 1
    ring

theorem utf8ByteSize_hexEncode (k v : Nat) : String.utf8ByteSize.go (hexEncode k v) = k := by
  induction k with
  | zero => rfl
  | succ k ih =>
    unfold hexEncode String.utf8ByteSize.go
    rw [ih, utf8Size_hextable _ (Nat.mod_lt _ (by decide))]

theorem len_Hex (id : ObjectID) : len (Hex id) = 24 := utf8ByteSize_hexEncode 24 id.val

/-- Decoding the hex form of an identity gives the identity back. -/
theorem ObjectIDFromHex_Hex (id : ObjectID) : ObjectIDFromHex (Hex id) = .ok id := by
  unfold ObjectIDFromHex
  rw [len_Hex]
  simp only [ne_eq, not_true_eq_false, if_false]
  have h : hexDecode (Hex id).data 0 = .ok (0 * 16 ^ 24 + id.val % 16 ^ 24) :=
    hexDecode_hexEncode 24 id.val 0
  rw [h]
  simp only
  congr 1
  apply Fin.ext
  have h2 : id.val < 2 ^ 96 := id.isLt
  have h3 : (16 : Nat) ^ 24 = 2 ^ 96 := by norm_num
  simp only [h3, zero_mul, zero_add, Nat.mod_mod]
  exact Nat.mod_eq_of_lt h2

/-! ## Paging -/

theorem sort_filter_comm (l : List Doc) (p : Doc → Bool) (h : (l.map Doc._id).Nodup) :
    (l.filter p).insertionSort idGE = (l.insertionSort idGE).filter p := by
  apply List.eq_of_perm_of_sorted (r := idGT)
  · exact (List.perm_insertionSort idGE _).trans
      ((List.perm_insertionSort idGE l).filter p).symm
  · exact sortedDesc_strict _ (nodup_filter_ids l p h)
  · exact (sortedDesc_strict l h).filter p

theorem filter_below_pivot (A B : List Doc) (x : Doc) (h : (A ++ x :: B).Pairwise idGT) :
    (A ++ x :: B).filter (Filter.idLt x._id).test = B := by
  rw [List.pairwise_append] at h
  obtain ⟨_, hxB, hAB⟩ := h
  rw [List.filter_append]
  have hA : A.filter (Filter.idLt x._id).test = [] := by
    rw [List.filter_eq_nil_iff]
    intro a ha
    have h1 : x._id < a._id := hAB a ha x (List.mem_cons_self x B)
    simp [Filter.test, not_lt.mpr (le_of_lt h1)]
  have hB : B.filter (Filter.idLt x._id).test = B := by
    rw [List.filter_eq_self]
    intro b hb
    have h1 : b._id < x._id := (List.pairwise_cons.mp hxB).1 b hb
    simp [Filter.test, h1]
  rw [hA, List.filter_cons, hB]
  simp [Filter.test]

theorem downClosed_all : DownClosed Filter.all := fun _ _ _ _ => rfl

theorem downClosed_idLt (i : ObjectID) : DownClosed (Filter.idLt i) := by
  intro y z hz hyz
  have h1 : z._id < i := by simpa [Filter.test] using hz
  simp [Filter.test, lt_of_le_of_lt hyz h1]

theorem rest_strict (c : Collection) (f : Filter) : (rest c f).Pairwise idGT :=
  sortedDesc_strict _ (nodup_filter_ids _ _ c.property)

/-- After a non-empty page, the documents older than its last one are exactly the
documents after the page. -/
theorem rest_next (c : Collection) (f : Filter) (hf : DownClosed f)
    (hne : (rest c f).take 10 ≠ []) :
    rest c (Filter.idLt (((rest c f).take 10).getLast hne)._id) = (rest c f).drop 10 := by
  set x := ((rest c f).take 10).getLast hne with hx
  have hxmem : x ∈ c.val.filter f.test :=
    (List.mem_insertionSort idGE).mp (List.mem_of_mem_take (List.getLast_mem hne))
  have hfx : f.test x = true := (List.mem_filter.mp hxmem).2
  have hfilter : c.val.filter (Filter.idLt x._id).test
      = (c.val.filter f.test).filter (Filter.idLt x._id).test := by
    rw [List.filter_filter]
    apply List.filter_congr
    intro y _
    cases hy : (Filter.idLt x._id).test y
    · rfl
    · have hlt : y._id < x._id := by simpa [Filter.test] using hy
      rw [hf y x hfx (le_of_lt hlt)]
      rfl
  have hsplit : rest c f = ((rest c f).take 10).dropLast ++ x :: (rest c f).drop 10 := by
    conv_lhs => rw [← List.take_append_drop 10 (rest c f)]
    conv_lhs => rw [← List.dropLast_append_getLast hne]
    rw [List.append_assoc]
    rfl
  have hstrict := rest_strict c f
  rw [hsplit] at hstrict
  have hcomm := sort_filter_comm (c.val.filter f.test) (Filter.idLt x._id).test
    (nodup_filter_ids _ _ c.property)
  show (c.val.filter (Filter.idLt x._id).test).insertionSort idGE = _
  rw [hfilter, hcomm]
  show (rest c f).filter (Filter.idLt x._id).test = _
  conv_lhs => rw [hsplit]
  exact filter_below_pivot _ _ x hstrict

theorem nextCursor_map (T : List Doc) (hne : T ≠ []) :
    nextCursor (T.map decode) = some (Hex (T.getLast hne)._id) := by
  unfold nextCursor
  rw [List.getLast?_map, List.getLast?_eq_getLast T hne]
  rfl

theorem Query_Hex (d : db) (i : ObjectID) :
    Query d (Hex i) false
      = (.ok (((rest d.coll (Filter.idLt i)).take 10).map decode),
         d.issue (.Find (.idLt i))) := by
  rw [Query_cursor d (Hex i) i false (ObjectIDFromHex_Hex i), Find_page]
  rfl

theorem Query_first (d : db) :
    Query d "" false
      = (.ok (((rest d.coll Filter.all).take 10).map decode), d.issue (.Find .all)) := by
  rw [Query_empty, Find_page]
  rfl

/-- Paging from a cursor whose query returns the first page of `rest c f` collects the
whole of `rest c f`, within `length + 1` queries. -/
theorem pageAll_collects (fuel : Nat) (c : Collection) (d : db) (cursor : String) (f : Filter)
    (hf : DownClosed f) (hd : d.coll = c)
    (hq : ∀ d1 : db, d1.coll = c →
      Query d1 cursor false = (.ok (((rest c f).take 10).map decode), d1.issue (.Find f)))
    (hfuel : (rest c f).length < fuel) :
    pageAll fuel d cursor = some ((rest c f).map decode) := by
  induction fuel generalizing d cursor f with
  | zero => exact absurd hfuel (Nat.not_lt_zero _)
  | succ n ih =>
    unfold pageAll
    rw [hq d hd]
    cases hT : (rest c f).take 10 with
    | nil =>
      have hnil : rest c f = [] := by
        rcases List.take_eq_nil_iff.mp hT with h | h
        · exact absurd h (by decide)
        · exact h
      simp [hnil]
    | cons t ts =>
      have hne : (rest c f).take 10 ≠ [] := by rw [hT]; exact List.cons_ne_nil t ts
      have hcur := nextCursor_map _ hne
      have hnext := rest_next c f hf hne
      simp only [hT] at hcur hnext
      simp only [List.map_cons] at hcur ⊢
      rw [hcur]
      simp only
      have hlen : ((rest c f).drop 10).length < n := by
        have h1 : 0 < (rest c f).length := by
          cases hr : rest c f with
          | nil => rw [hr] at hT; cases hT
          | cons _ _ => simp
        rw [List.length_drop]
        omega
      rw [← hnext] at hlen
      have hrec := ih (d.issue (.Find f)) (Hex ((t :: ts).getLast (List.cons_ne_nil t ts))._id)
        (Filter.idLt ((t :: ts).getLast (List.cons_ne_nil t ts))._id)
        (downClosed_idLt _) hd
        (fun d1 h1 => by rw [Query_Hex, h1]) hlen
      rw [hrec, hnext]
      simp only [Option.map_some']
      congr 1
      rw [← List.map_cons, ← hT, ← List.map_append, List.take_append_drop]

/-- C5: on a fixed store (whose identities are pairwise distinct, as in every
collection), paging from no cursor, each time passing the hex identity of the last
record of the previous page, until a page is empty, ends within `n + 1` queries for `n`
stored records, and the concatenation of the pages is the whole collection sorted by
identity newest-first: a rearrangement of the stored documents (each exactly once) in
strictly decreasing identity order.  More fuel changes nothing. -/
theorem paging_yields_whole_collection (d : db) (extra : Nat) :
    ∃ all : List Doc,
      pageAll (d.coll.val.length + 1 + extra) d "" = some (all.map decode) ∧
      all.map decode = unpagedNewestFirst d.coll ∧
      all.Perm d.coll.val ∧
      all.Pairwise (fun a b => b._id < a._id) := by
  have hall : d.coll.val.filter Filter.all.test = d.coll.val :=
    List.filter_eq_self.mpr (fun _ _ => rfl)
  have hrest : rest d.coll Filter.all = d.coll.val.insertionSort idGE := by
    unfold rest
    rw [hall]
  refine ⟨rest d.coll Filter.all, ?_, by rw [hrest]; rfl, ?_, rest_strict d.coll Filter.all⟩
  · apply pageAll_collects _ d.coll d "" Filter.all downClosed_all rfl
    · intro d1 h1
      rw [Query_first, h1]
    · rw [hrest, List.length_insertionSort]
      omega
  · rw [hrest]
    exact List.perm_insertionSort idGE _

end Judger
